import Mathlib

/-!
Verification development for the Routinely repository (Home Assistant custom
card for routine execution).  The definitions below are shallow embeddings of
the JavaScript source in `custom_components/routinely/www/` (the card bundle
`routinely-card.js` and the module files `routinely/views.js`,
`routinely/utils.js`).  The backend execution engine is not part of the
frontend sources; where a claim depends on it, the engine operation is
modelled from the specification and marked as such in its doc comment.

Layout: all definitions come first, followed by the supporting lemmas and the
claim theorems.
-/

namespace Routinely

/-! ### Generic helpers for JavaScript array primitives -/

/-- Translation of the JavaScript `Array.prototype.findIndex`: index of the
first element satisfying `p`, with `none` in place of the sentinel `-1`. -/
def findIndexAux {α : Type} (p : α → Bool) : List α → Option Nat
  | [] => none
  | x :: xs => if p x then some 0 else (findIndexAux p xs).map (· + 1)

/-- Translation of the JavaScript `String(n).padStart(2, c)` with the zero
character, applied to a decimal numeral string. -/
def padStart2 (s : String) : String :=
  if s.length ≥ 2 then s else String.mk (List.replicate (2 - s.length) '0') ++ s

/-! ### Card bundle (`routinely-card.js`) -/

/-- One time-adjustment button of the active-routine view: the number of
seconds it sends with the `adjust-time` action, and whether it is enabled. -/
structure AdjustButton where
  seconds : Int
  enabled : Bool
deriving DecidableEq, Repr

/-- A task record as carried by the card UI state (`sensor.routinely_tasks`
attribute entries); only the fields the verified computations read are kept.
A JavaScript `undefined` duration is modelled as `none`. -/
structure RTask where
  id : String
  name : String
  duration : Option Nat
deriving DecidableEq, Repr

/-- The render state recomputed by `_getRenderState` (lines 276-296): one
field per entity attribute it reads, plus the UI mode.  Missing entities or
attributes are modelled as `none`. -/
structure RenderState where
  status : Option String
  isActive : Bool
  currentTask : Option String
  timeRemaining : Option Int
  progress : Option String
  taskCount : Option String
  routineCount : Option String
  mode : String
deriving DecidableEq, Repr

/-- The UI actions of the active-routine view that the claims mention,
dispatched through `data-action` attributes. -/
inductive UIAction
  | complete
  | skip
  | pause
  | resume
  | stop
deriving DecidableEq, Repr

namespace Card

/-- Bundled `utils.formatTime` from `routinely-card.js` (lines 176-186); a
`null`/`undefined` argument is modelled as `none`. -/
def formatTime (seconds : Option Int) (showSign : Bool) : String :=
  match seconds with
  | none => "--:--"
  | some s =>
    let isNegative := s < 0
    let absSeconds := s.natAbs
    let hrs := absSeconds / 3600
    let mins := (absSeconds % 3600) / 60
    let secs := absSeconds % 60
    let pfx := if isNegative then "+" else (if showSign then "-" else "")
    if hrs > 0 then
      pfx ++ toString hrs ++ ":" ++ padStart2 (toString mins) ++ ":" ++ padStart2 (toString secs)
    else
      pfx ++ padStart2 (toString mins) ++ ":" ++ padStart2 (toString secs)

/-- Time-adjustment row of `_renderActiveRoutine` (lines 411-423): rendered
only when not paused; each button carries its `data-seconds` payload and is
disabled unless its guard holds (`canSubtract5`, `canSubtract1`, `canAdd`). -/
def timeAdjustButtons (timeRemaining : Int) (isPaused : Bool) : List AdjustButton :=
  if isPaused then []
  else
    let isOvertime : Bool := decide (timeRemaining < 0)
    let canSubtract5 : Bool := decide (timeRemaining > 300)
    let canSubtract1 : Bool := decide (timeRemaining > 60)
    let canAdd : Bool := !isOvertime
    [ { seconds := -300, enabled := canSubtract5 },
      { seconds := -60, enabled := canSubtract1 },
      { seconds := 60, enabled := canAdd },
      { seconds := 300, enabled := canAdd } ]

/-- Form modes during which `set hass` suppresses re-renders (line 268). -/
def inFormMode (mode : String) : Bool :=
  ["create-task", "edit-task", "create-routine", "edit-routine"].contains mode

/-- Re-render decision of the `set hass` accessor (lines 258-274), for a
non-null incoming `hass`.  The `JSON.stringify` comparison of two render
states is modelled as structural equality, and the optional-chained
`_lastRenderState?.isActive` as a comparison of `Option Bool` values. -/
def hassShouldRerender (last : Option RenderState) (cur : RenderState) : Bool :=
  let shouldRender : Bool :=
    match last with
    | none => true
    | some l => decide (cur ≠ l)
  let inForm := inFormMode cur.mode
  shouldRender && (!inForm || decide (last.map RenderState.isActive ≠ some cur.isActive))

/-- Service name invoked by `_handleAction` (lines 1060-1075) for each
active-routine control action. -/
def serviceForAction : UIAction → String
  | UIAction.complete => "complete_task"
  | UIAction.skip => "skip"
  | UIAction.pause => "pause"
  | UIAction.resume => "resume"
  | UIAction.stop => "cancel"

/-- The `toggle-skip` handler of `_handleAction` (lines 1040-1046): delete
the id from the skipped set when present, insert it otherwise.  The
JavaScript `Set` is modelled as a `Finset`. -/
def toggleSkip (skipped : Finset String) (taskId : String) : Finset String :=
  if taskId ∈ skipped then skipped.erase taskId else insert taskId skipped

/-- The review-screen branch of `_moveTask` (lines 1249-1270): locate the
task by id with `findIndex`, return unchanged when absent or when the target
index falls outside the list, otherwise swap the two adjacent entries. -/
def moveTask (ts : List RTask) (taskId : String) (dir : Int) : List RTask :=
  match findIndexAux (fun t => t.id == taskId) ts with
  | none => ts
  | some idx =>
      let newIdx : Int := (idx : Int) + dir
      if newIdx < 0 ∨ (ts.length : Int) ≤ newIdx then ts
      else
        match ts.get? idx, ts.get? newIdx.toNat with
        | some a, some b => (ts.set idx b).set newIdx.toNat a
        | _, _ => ts

/-- The JavaScript `task.duration || 0` read used by the review screen. -/
def durOr0 (t : RTask) : Nat := t.duration.getD 0

/-- `includedTasks` of `_renderReviewScreen` (line 544): the tasks whose id
is not in the skipped set. -/
def includedTasks (skipped : Finset String) (ts : List RTask) : List RTask :=
  ts.filter (fun t => decide (t.id ∉ skipped))

/-- `totalDuration` of `_renderReviewScreen` (line 545): a `reduce` over the
included tasks. -/
def totalDuration (skipped : Finset String) (ts : List RTask) : Nat :=
  (includedTasks skipped ts).foldl (fun sum t => sum + durOr0 t) 0

/-- The per-task `(startOffset, endOffset)` pairs produced by the `tasks.map`
closure of `_renderReviewScreen` (lines 547-556): `runningTime` accumulates
the durations of non-skipped tasks only, while the end offset always adds the
duration of the row itself.  The identical computation appears in
`renderReviewScreen` of `routinely/views.js` (lines 163-195). -/
def reviewRows (skipped : Finset String) : List RTask → Nat → List (Nat × Nat)
  | [], _ => []
  | t :: ts, runningTime =>
      (runningTime, runningTime + durOr0 t) ::
        reviewRows skipped ts
          (if t.id ∈ skipped then runningTime else runningTime + durOr0 t)

/-- Review-screen state of the card relevant to `_confirmStartRoutine`:
`_reviewRoutine` (kept as its id, `none` for `null`), `_reviewTasks` and
`_skippedTaskIds`. -/
structure ReviewState where
  reviewRoutineId : Option String
  reviewTasks : List RTask
  skippedTaskIds : Finset String

/-- Payload of the `routinely.start` service call.  `skip_task_ids` is sent
as `Array.from` of the skipped set and is modelled as the set itself. -/
structure StartPayload where
  routine_id : String
  skip_task_ids : Finset String
  task_order : List String

/-- `_confirmStartRoutine` (lines 1335-1355): no-op when `_reviewRoutine` is
null; otherwise call `start` with the review list order and the skipped
ids. -/
def confirmStartRoutine (rs : ReviewState) : Option StartPayload :=
  match rs.reviewRoutineId with
  | none => none
  | some rid =>
      some { routine_id := rid
             skip_task_ids := rs.skippedTaskIds
             task_order := rs.reviewTasks.map RTask.id }

end Card

/-! ### Views module (`routinely/views.js`, `routinely/utils.js`) -/

namespace Views

/-- Exported `formatTime` from `routinely/utils.js` (module lines 580-589):
every negative input yields the placeholder string. -/
def formatTime (seconds : Option Int) : String :=
  match seconds with
  | none => "--:--"
  | some s =>
    if s < 0 then "--:--"
    else
      let n := s.toNat
      let hrs := n / 3600
      let mins := (n % 3600) / 60
      let secs := n % 60
      if hrs > 0 then
        toString hrs ++ ":" ++ padStart2 (toString mins) ++ ":" ++ padStart2 (toString secs)
      else
        padStart2 (toString mins) ++ ":" ++ padStart2 (toString secs)

/-- Action buttons chosen by `renderActiveRoutine` of `routinely/views.js`
(lines 11-67): the awaiting-input branch is checked first, then paused, then
the advancement mode. -/
def activeRoutineActions (awaitingInput isPaused : Bool) (advancementMode : String) :
    List UIAction :=
  if awaitingInput then [UIAction.complete, UIAction.skip]
  else if isPaused then [UIAction.resume, UIAction.stop]
  else if advancementMode = "manual" then [UIAction.complete, UIAction.skip]
  else [UIAction.pause, UIAction.skip]

end Views

/-! ### Execution engine, modelled from the specification

The engine (session state machine, tick model, advancement policy) lives in
the Python backend, which is not among the frontend sources; the definitions
in this namespace are therefore modelled from the specification (sections 4.1
to 4.4 and the properties of section 8) rather than translated from code. -/

namespace Engine

/-- Modelled from the spec: advancement modes (section 3).  The `confirm`
mode and its sub-state are not exercised by any claim and are omitted. -/
inductive AdvMode
  | auto
  | manual
deriving DecidableEq, Repr

/-- Modelled from the spec: per-slot task status (section 3, TaskState). -/
inductive TaskStatus
  | pending
  | active
  | completed
  | skipped
deriving DecidableEq, Repr

/-- Modelled from the spec: the per-slot snapshot of a catalog task that a
session queue holds. -/
structure EngTask where
  taskId : String
  mode : AdvMode
deriving DecidableEq, Repr

/-- Modelled from the spec: TaskState (section 3), restricted to the fields
the claims observe. -/
structure TaskState where
  taskId : String
  status : TaskStatus
  wasAutoAdvanced : Bool
deriving DecidableEq, Repr

/-- Modelled from the spec: session status; only the statuses reachable in
the verified scenarios are needed. -/
inductive SessionStatus
  | running
  | completed
deriving DecidableEq, Repr

/-- Modelled from the spec: lifecycle events emitted to the Notifier
(section 6), restricted to those the claims count. -/
inductive Event
  | routine_started
  | task_started
  | task_completed
  | routine_completed
  | task_awaiting_input
deriving DecidableEq, Repr

/-- Modelled from the spec: Session (section 3), restricted to the fields
the claims observe. -/
structure Session where
  tasks : List EngTask
  states : List TaskState
  currentTaskIndex : Nat
  status : SessionStatus
deriving DecidableEq, Repr

/-- Modelled from the spec: the initial TaskState of a queue slot, pre-marked
`skipped` when its id is in the `skip_task_ids` option (section 8). -/
def initState (skips : Finset String) (t : EngTask) : TaskState :=
  { taskId := t.taskId
    status := if t.taskId ∈ skips then TaskStatus.skipped else TaskStatus.pending
    wasAutoAdvanced := false }

/-- Mark the slot at index `i` active (section 4.3 step 3). -/
def activateAt (states : List TaskState) (i : Nat) : List TaskState :=
  match states.get? i with
  | some s => states.set i { s with status := TaskStatus.active }
  | none => states

/-- Mark the slot at index `i` completed with the given `wasAutoAdvanced`
flag (section 4.2). -/
def completeAt (states : List TaskState) (i : Nat) (autoAdv : Bool) : List TaskState :=
  match states.get? i with
  | some s =>
      states.set i { s with status := TaskStatus.completed, wasAutoAdvanced := autoAdv }
  | none => states

/-- Eligibility test used when searching for the next slot to activate. -/
def isPending (s : TaskState) : Bool := decide (s.status = TaskStatus.pending)

/-- Modelled from the spec: `start` (section 4.1 transition table, first row,
with the `skip_task_ids` option of sections 6 and 8).  An empty routine
fails; otherwise all slots are built (skip-marked ones pre-set to `skipped`),
and the first eligible slot becomes active.  When every slot is pre-skipped
the queue is exhausted immediately and the session completes. -/
def startEngine (tasks : List EngTask) (skips : Finset String) :
    Option (Session × List Event) :=
  if tasks.isEmpty then none
  else
    let states0 := tasks.map (initState skips)
    match findIndexAux isPending states0 with
    | some i =>
        some ({ tasks := tasks, states := activateAt states0 i,
                currentTaskIndex := i, status := SessionStatus.running },
              [Event.routine_started, Event.task_started])
    | none =>
        some ({ tasks := tasks, states := states0,
                currentTaskIndex := states0.length, status := SessionStatus.completed },
              [Event.routine_started, Event.routine_completed])

/-- Modelled from the spec: the advance-to-next-task algorithm (section 4.3):
increment the index, skip over slots already marked `skipped`, activate the
first eligible slot, or complete the session when the queue is exhausted. -/
def advance (s : Session) : Session × List Event :=
  let j := s.currentTaskIndex + 1
  match findIndexAux isPending (s.states.drop j) with
  | some k =>
      ({ s with states := activateAt s.states (j + k), currentTaskIndex := j + k },
       [Event.task_started])
  | none =>
      ({ s with currentTaskIndex := s.states.length, status := SessionStatus.completed },
       [Event.routine_completed])

/-- Modelled from the spec: a tick that arrives after the current task
deadline has passed (sections 4.2 and 4.4).  In `auto` mode the current slot
completes with `wasAutoAdvanced` set and the session advances; in `manual`
mode the slot stays active and `task_awaiting_input` is emitted.  A tick in a
terminal state is a no-op. -/
def tickExpired (s : Session) : Session × List Event :=
  if s.status = SessionStatus.running then
    match s.tasks.get? s.currentTaskIndex with
    | some t =>
        match t.mode with
        | AdvMode.auto =>
            let s' := { s with states := completeAt s.states s.currentTaskIndex true }
            let r := advance s'
            (r.1, Event.task_completed :: r.2)
        | AdvMode.manual => (s, [Event.task_awaiting_input])
    | none => (s, [])
  else (s, [])

/-- Iterate `tickExpired`, accumulating the emitted events. -/
def runTicks : Session → Nat → Session × List Event
  | s, 0 => (s, [])
  | s, n + 1 =>
      let r := tickExpired s
      let r2 := runTicks r.1 n
      (r2.1, r.2 ++ r2.2)

/-- Modelled from the spec: the `adjustTime` guard (section 4.1 transition
table and section 8): a negative delta is rejected unless the remaining time
strictly exceeds its magnitude, and a rejected command leaves the deadline
unchanged (`none`); an accepted command shifts the deadline by the delta.
Positive deltas carry no guard. -/
def adjustTime (remaining deadline delta : Int) : Option Int :=
  if delta < 0 ∧ remaining ≤ -delta then none else some (deadline + delta)

/-- Number of occurrences of an event in an emission trace. -/
def countEvent (e : Event) : List Event → Nat
  | [] => 0
  | x :: l => (if x = e then 1 else 0) + countEvent e l

/-- An all-auto task for a given id. -/
def mkAutoTask (i : String) : EngTask := { taskId := i, mode := AdvMode.auto }

/-- A completed, auto-advanced slot. -/
def mkDone (i : String) : TaskState :=
  { taskId := i, status := TaskStatus.completed, wasAutoAdvanced := true }

/-- A pending slot. -/
def mkPend (i : String) : TaskState :=
  { taskId := i, status := TaskStatus.pending, wasAutoAdvanced := false }

/-- An active slot. -/
def mkActive (i : String) : TaskState :=
  { taskId := i, status := TaskStatus.active, wasAutoAdvanced := false }

/-- Proof-support description of an in-flight all-auto session: the tasks in
`done` are completed, `cur` is active, and the tasks in `todo` are pending. -/
def midSession (done : List String) (cur : String) (todo : List String) : Session :=
  { tasks := (done ++ cur :: todo).map mkAutoTask
    states := done.map mkDone ++ mkActive cur :: todo.map mkPend
    currentTaskIndex := done.length
    status := SessionStatus.running }

/-- Proof-support description of a finished all-auto session. -/
def endSession (all : List String) : Session :=
  { tasks := all.map mkAutoTask
    states := all.map mkDone
    currentTaskIndex := all.length
    status := SessionStatus.completed }

/-- The event trace produced while ticking an all-auto session to the end:
one `task_completed` per remaining task, a `task_started` between
consecutive ones, and a final `routine_completed`. -/
def tickEvents : List String → List Event
  | [] => [Event.task_completed, Event.routine_completed]
  | _ :: todo => Event.task_completed :: Event.task_started :: tickEvents todo

end Engine

/-! ### Supporting lemmas -/

theorem findIndexAux_lt_length {α : Type} {p : α → Bool} :
    ∀ {l : List α} {i : Nat}, findIndexAux p l = some i → i < l.length := by
  intro l
  induction l with
  | nil => intro i h; simp [findIndexAux] at h
  | cons x xs ih =>
    intro i h
    by_cases hp : p x
    · simp [findIndexAux, hp] at h
      simp only [List.length_cons]
      omega
    · simp [findIndexAux, hp] at h
      obtain ⟨j, hj, rfl⟩ := h
      have := ih hj
      simp only [List.length_cons]
      omega

theorem findIndexAux_eq_some {α : Type} {p : α → Bool} :
    ∀ {l : List α} {i : Nat}, findIndexAux p l = some i →
      ∃ A x B, l = A ++ x :: B ∧ A.length = i ∧ p x = true ∧ ∀ y ∈ A, p y = false := by
  intro l
  induction l with
  | nil => intro i h; simp [findIndexAux] at h
  | cons a xs ih =>
    intro i h
    by_cases hp : p a
    · simp [findIndexAux, hp] at h
      exact ⟨[], a, xs, by simp, by simp [← h], hp, by simp⟩
    · simp [findIndexAux, hp] at h
      obtain ⟨j, hj, rfl⟩ := h
      obtain ⟨A, x, B, hl, hlen, hx, hA⟩ := ih hj
      refine ⟨a :: A, x, B, by simp [hl], by simp [hlen], hx, ?_⟩
      intro y hy
      rcases List.mem_cons.mp hy with rfl | hy
      · simpa using hp
      · exact hA y hy

theorem findIndexAux_append {α : Type} {p : α → Bool} :
    ∀ (A l : List α), (∀ y ∈ A, p y = false) →
      findIndexAux p (A ++ l) = (findIndexAux p l).map (· + A.length) := by
  intro A
  induction A with
  | nil =>
    intro l _
    cases h : findIndexAux p l <;> simp [h]
  | cons a A' ih =>
    intro l hA
    have ha : p a = false := hA a (by simp)
    have hA' : ∀ y ∈ A', p y = false := fun y hy => hA y (by simp [hy])
    simp only [List.cons_append, findIndexAux, ha, Bool.false_eq_true, if_false,
      List.append_eq]
    rw [ih l hA']
    cases h : findIndexAux p l with
    | none => simp [h]
    | some j => simp [h]; omega

theorem findIndexAux_map {α β : Type} (p : β → Bool) (f : α → β) :
    ∀ l : List α, findIndexAux p (l.map f) = findIndexAux (fun x => p (f x)) l := by
  intro l
  induction l with
  | nil => simp [findIndexAux]
  | cons x xs ih => by_cases hp : p (f x) <;> simp [findIndexAux, hp, ih]

theorem findIndexAux_congr {α : Type} {p q : α → Bool} (hpq : ∀ x, p x = q x) :
    ∀ l : List α, findIndexAux p l = findIndexAux q l := by
  intro l
  induction l with
  | nil => simp [findIndexAux]
  | cons x xs ih => simp [findIndexAux, hpq x, ih]

theorem set_append_add {α : Type} :
    ∀ (A l : List α) (k : Nat) (y : α), (A ++ l).set (A.length + k) y = A ++ l.set k y := by
  intro A
  induction A with
  | nil => intro l k y; simp
  | cons a A' ih =>
    intro l k y
    have harith : (a :: A').length + k = (A'.length + k) + 1 := by simp; omega
    rw [harith, List.cons_append, List.set_cons_succ, ih, List.cons_append]

theorem set_append_mid {α : Type} (A : List α) (x : α) (B : List α) (y : α) :
    (A ++ x :: B).set A.length y = A ++ y :: B := by
  have := set_append_add A (x :: B) 0 y
  simpa using this

theorem get?_append_add {α : Type} :
    ∀ (A l : List α) (k : Nat), (A ++ l).get? (A.length + k) = l.get? k := by
  intro A
  induction A with
  | nil => intro l k; simp
  | cons a A' ih =>
    intro l k
    have harith : (a :: A').length + k = (A'.length + k) + 1 := by simp; omega
    rw [harith, List.cons_append]
    simpa using ih l k

theorem get?_append_mid {α : Type} (A : List α) (x : α) (B : List α) :
    (A ++ x :: B).get? A.length = some x := by
  have := get?_append_add A (x :: B) 0
  simpa using this

theorem findIndexAux_get? {α : Type} {p : α → Bool} {l : List α} {i : Nat}
    (h : findIndexAux p l = some i) : ∃ x, l.get? i = some x ∧ p x = true := by
  obtain ⟨A, x, B, rfl, hlen, hx, -⟩ := findIndexAux_eq_some h
  exact ⟨x, by rw [← hlen]; exact get?_append_mid A x B, hx⟩

theorem get?_set_self {α : Type} :
    ∀ (l : List α) (i : Nat) (a : α), i < l.length → (l.set i a).get? i = some a := by
  intro l
  induction l with
  | nil => intro i a h; simp at h
  | cons x xs ih =>
    intro i a h
    cases i with
    | zero => simp
    | succ j =>
      simp only [List.set_cons_succ, List.get?]
      exact ih j a (by simpa using h)

theorem get?_set_other {α : Type} :
    ∀ (l : List α) (i k : Nat) (a : α), i ≠ k → (l.set i a).get? k = l.get? k := by
  intro l
  induction l with
  | nil => intro i k a _; simp
  | cons x xs ih =>
    intro i k a hik
    cases i with
    | zero =>
      cases k with
      | zero => exact absurd rfl hik
      | succ j => simp [List.get?]
    | succ i' =>
      cases k with
      | zero => simp [List.get?]
      | succ j =>
        simp only [List.set_cons_succ, List.get?]
        exact ih i' j a (by omega)

theorem drop_append_len {α : Type} :
    ∀ (A l : List α), (A ++ l).drop A.length = l := by
  intro A
  induction A with
  | nil => intro l; simp
  | cons a A' ih => intro l; simpa using ih l

theorem str_empty_append (s : String) : "" ++ s = s := by
  cases s
  rfl

/-! ### Claim theorems -/

/-- C10 counterexample: at `-1` seconds the bundled card formatter prints the
overtime string `+00:01` while the views-module formatter prints the
placeholder `--:--`, so the two implementations disagree on negative
inputs. -/
theorem C10_format_time_counterexample :
    Card.formatTime (some (-1)) false = "+00:01"
    ∧ Views.formatTime (some (-1)) = "--:--"
    ∧ Card.formatTime (some (-1)) false ≠ Views.formatTime (some (-1)) := by
  refine ⟨by decide, by decide, by decide⟩

/-- C10 (amended): the bundled `utils.formatTime` of `routinely-card.js`
(with its default `showSign = false`) and the exported `formatTime` of the
views/utils module compute the same display string for every null or
non-negative input; they differ on negative inputs. -/
theorem C10_format_time_agree (s : Option Int) (h : ∀ v, s = some v → 0 ≤ v) :
    Card.formatTime s false = Views.formatTime s := by
  cases s with
  | none => rfl
  | some v =>
    obtain ⟨n, rfl⟩ := Int.eq_ofNat_of_zero_le (h v rfl)
    have hneg : ¬((n : Int) < 0) := by omega
    simp [Card.formatTime, Views.formatTime, hneg, str_empty_append]

/-- C10 witness: the two formatters agree at the concrete input 2. -/
theorem C10_format_time_agree_witness :
    (∀ v : Int, (some 2 : Option Int) = some v → 0 ≤ v)
    ∧ Card.formatTime (some 2) false = Views.formatTime (some 2) :=
  ⟨fun v hv => by cases hv; decide,
   C10_format_time_agree (some 2) (fun v hv => by cases hv; decide)⟩

/-- C2: in the active-routine view of a running (non-paused) session, the
`-60` adjustment button is enabled exactly when the remaining time strictly
exceeds 60 seconds and the `-300` button exactly when it strictly exceeds
300 seconds; the spec-modelled engine `adjustTime` accepts a negative delta
exactly under the same guard, shifting the deadline by the delta, and a
rejected call leaves the deadline unchanged (no partial application). -/
theorem C2_negative_adjust_guard (r d : Int) :
    (((Card.timeAdjustButtons r false).get? 1).map AdjustButton.enabled = some true
        ↔ 60 < r)
    ∧ (((Card.timeAdjustButtons r false).get? 0).map AdjustButton.enabled = some true
        ↔ 300 < r)
    ∧ Engine.adjustTime r d (-60) = (if 60 < r then some (d + -60) else none)
    ∧ Engine.adjustTime r d (-300) = (if 300 < r then some (d + -300) else none) := by
  refine ⟨?_, ?_, ?_, ?_⟩
  · simp [Card.timeAdjustButtons, List.get?]
  · simp [Card.timeAdjustButtons, List.get?]
  · simp only [Engine.adjustTime]
    split_ifs <;> first | rfl | omega
  · simp only [Engine.adjustTime]
    split_ifs <;> first | rfl | omega

/-- C3 counterexample: with one second of overtime (remaining time `-1`) in a
running, non-paused session, both positive adjustment buttons (`+60` and
`+300`) are rendered disabled, refuting availability regardless of the
remaining time. -/
theorem C3_positive_adjust_counterexample :
    ((Card.timeAdjustButtons (-1) false).get? 2).map AdjustButton.enabled = some false
    ∧ ((Card.timeAdjustButtons (-1) false).get? 3).map AdjustButton.enabled
        = some false := by
  refine ⟨by decide, by decide⟩

/-- C3 (amended): in a running, non-paused session the positive adjustment
buttons (`+60`, `+300`) are enabled exactly when the session is not in
overtime (remaining time at least 0); there is no upper bound: the
spec-modelled engine accepts positive deltas unconditionally. -/
theorem C3_positive_adjust_amended (r d : Int) :
    (((Card.timeAdjustButtons r false).get? 2).map AdjustButton.enabled = some true
        ↔ 0 ≤ r)
    ∧ (((Card.timeAdjustButtons r false).get? 3).map AdjustButton.enabled = some true
        ↔ 0 ≤ r)
    ∧ Engine.adjustTime r d 60 = some (d + 60)
    ∧ Engine.adjustTime r d 300 = some (d + 300) := by
  refine ⟨?_, ?_, ?_, ?_⟩
  · simp [Card.timeAdjustButtons, List.get?, Int.not_lt]
  · simp [Card.timeAdjustButtons, List.get?, Int.not_lt]
  · simp only [Engine.adjustTime]
    split_ifs <;> first | rfl | omega
  · simp only [Engine.adjustTime]
    split_ifs <;> first | rfl | omega

/-- C5: whenever the views-module active-routine renderer runs with
`awaitingInput` true, exactly the two actions complete and skip are offered
(regardless of pause state or advancement mode), and the card action handler
maps the complete action to the `complete_task` service and the skip action
to the `skip` service. -/
theorem C5_awaiting_input_actions (isPaused : Bool) (advancementMode : String) :
    Views.activeRoutineActions true isPaused advancementMode
        = [UIAction.complete, UIAction.skip]
    ∧ Card.serviceForAction UIAction.complete = "complete_task"
    ∧ Card.serviceForAction UIAction.skip = "skip" :=
  ⟨rfl, rfl, rfl⟩

/-- C6: for consecutive `hass` assignments with a previously rendered state,
a re-render happens exactly when the recomputed render state differs from the
last rendered one, except that in a form mode only a change of the `isActive`
flag triggers a re-render. -/
theorem C6_hass_rerender (l cur : RenderState) :
    (Card.inFormMode cur.mode = false →
      (Card.hassShouldRerender (some l) cur = true ↔ cur ≠ l))
    ∧ (Card.inFormMode cur.mode = true →
      (Card.hassShouldRerender (some l) cur = true ↔ cur.isActive ≠ l.isActive)) := by
  constructor
  · intro hform
    simp [Card.hassShouldRerender, hform]
  · intro hform
    have hmap : Option.map RenderState.isActive (some l) = some l.isActive := rfl
    simp only [Card.hassShouldRerender, hform, hmap, Bool.not_true,
      Bool.false_or, Bool.and_eq_true, decide_eq_true_eq, ne_eq, Option.some.injEq]
    constructor
    · rintro ⟨-, hia⟩
      exact fun he => hia he.symm
    · intro hia
      exact ⟨fun he => hia (by rw [he]), fun he => hia he.symm⟩

/-- C6 witness: with the home mode (not a form) a changed render state
triggers a re-render. -/
theorem C6_hass_rerender_witness :
    Card.inFormMode "home" = false
    ∧ (Card.hassShouldRerender
        (some { status := some "idle", isActive := false, currentTask := none,
                timeRemaining := none, progress := none, taskCount := none,
                routineCount := none, mode := "home" })
        { status := some "running", isActive := true, currentTask := none,
          timeRemaining := none, progress := none, taskCount := none,
          routineCount := none, mode := "home" } = true
      ↔ ({ status := some "running", isActive := true, currentTask := none,
           timeRemaining := none, progress := none, taskCount := none,
           routineCount := none, mode := "home" } : RenderState)
          ≠ { status := some "idle", isActive := false, currentTask := none,
              timeRemaining := none, progress := none, taskCount := none,
              routineCount := none, mode := "home" }) :=
  ⟨rfl, (C6_hass_rerender _ _).1 rfl⟩

/-- C7: the review-screen toggle-skip handler removes a present id and adds
an absent one, so applying it twice with the same id restores the skipped
set (the toggle is an involution). -/
theorem C7_toggle_skip_involution (S : Finset String) (t : String) :
    Card.toggleSkip (Card.toggleSkip S t) t = S
    ∧ (t ∈ Card.toggleSkip S t ↔ t ∉ S) := by
  by_cases h : t ∈ S
  · refine ⟨?_, ?_⟩
    · simp only [Card.toggleSkip, h, if_true, Finset.mem_erase, ne_eq,
        not_true_eq_false, false_and, if_false]
      exact Finset.insert_erase h
    · simp [Card.toggleSkip, h]
  · refine ⟨?_, ?_⟩
    · simp only [Card.toggleSkip, h, if_false, Finset.mem_insert, true_or, if_true]
      exact Finset.erase_insert h
    · simp [Card.toggleSkip, h]

theorem foldl_add_eq_sum (l : List RTask) :
    ∀ a : Nat, l.foldl (fun sum t => sum + Card.durOr0 t) a
      = a + (l.map Card.durOr0).sum := by
  induction l with
  | nil => intro a; simp
  | cons t ts ih =>
    intro a
    simp only [List.foldl_cons, List.map_cons, List.sum_cons, ih (a + Card.durOr0 t)]
    omega

theorem reviewRows_get? (skipped : Finset String) :
    ∀ (ts : List RTask) (rt k : Nat) (x : RTask), ts.get? k = some x →
      (Card.reviewRows skipped ts rt).get? k =
        some (rt + (((ts.take k).filter
                (fun t => decide (t.id ∉ skipped))).map Card.durOr0).sum,
              rt + (((ts.take k).filter
                (fun t => decide (t.id ∉ skipped))).map Card.durOr0).sum
                + Card.durOr0 x) := by
  intro ts
  induction ts with
  | nil => intro rt k x h; simp at h
  | cons t ts' ih =>
    intro rt k x h
    cases k with
    | zero =>
      simp only [List.get?] at h
      cases h
      simp [Card.reviewRows]
    | succ k' =>
      simp only [List.get?] at h
      simp only [Card.reviewRows, List.get?]
      rw [ih _ k' x h]
      by_cases hskip : t.id ∈ skipped
      · simp [hskip]
      · simp only [List.take_succ_cons, List.filter_cons]
        simp [hskip]
        omega

/-- C9: in the review screen, the total duration is the sum of the durations
of the non-skipped tasks only, and the start offset of the row at index `k`
is the sum of the durations of the non-skipped tasks before it, while its end
offset always adds the duration of the row itself (even for a skipped
row). -/
theorem C9_review_offsets (skipped : Finset String) (ts : List RTask) (k : Nat)
    (x : RTask) (h : ts.get? k = some x) :
    (Card.reviewRows skipped ts 0).get? k =
      some ((((ts.take k).filter
              (fun t => decide (t.id ∉ skipped))).map Card.durOr0).sum,
            (((ts.take k).filter
              (fun t => decide (t.id ∉ skipped))).map Card.durOr0).sum
              + Card.durOr0 x)
    ∧ Card.totalDuration skipped ts
        = ((ts.filter (fun t => decide (t.id ∉ skipped))).map Card.durOr0).sum := by
  constructor
  · have := reviewRows_get? skipped ts 0 k x h
    simpa using this
  · simp [Card.totalDuration, Card.includedTasks, foldl_add_eq_sum]

/-- C9 witness: the offsets and total for a concrete three-task review list
whose middle task is skipped, by direct application of the theorem. -/
theorem C9_review_offsets_witness :
    ([{ id := "a", name := "A", duration := some 60 },
      { id := "b", name := "B", duration := some 30 },
      { id := "c", name := "C", duration := some 10 }] : List RTask).get? 2
        = some { id := "c", name := "C", duration := some 10 }
    ∧ ((Card.reviewRows ({"b"} : Finset String)
          [{ id := "a", name := "A", duration := some 60 },
           { id := "b", name := "B", duration := some 30 },
           { id := "c", name := "C", duration := some 10 }] 0).get? 2 =
        some (((((([{ id := "a", name := "A", duration := some 60 },
                  { id := "b", name := "B", duration := some 30 },
                  { id := "c", name := "C", duration := some 10 }] : List RTask).take 2).filter
                  (fun t => decide (t.id ∉ ({"b"} : Finset String)))).map Card.durOr0).sum),
              ((((([{ id := "a", name := "A", duration := some 60 },
                  { id := "b", name := "B", duration := some 30 },
                  { id := "c", name := "C", duration := some 10 }] : List RTask).take 2).filter
                  (fun t => decide (t.id ∉ ({"b"} : Finset String)))).map Card.durOr0).sum)
                + Card.durOr0 { id := "c", name := "C", duration := some 10 })
      ∧ Card.totalDuration ({"b"} : Finset String)
          [{ id := "a", name := "A", duration := some 60 },
           { id := "b", name := "B", duration := some 30 },
           { id := "c", name := "C", duration := some 10 }]
        = ((([{ id := "a", name := "A", duration := some 60 },
              { id := "b", name := "B", duration := some 30 },
              { id := "c", name := "C", duration := some 10 }] : List RTask).filter
              (fun t => decide (t.id ∉ ({"b"} : Finset String)))).map Card.durOr0).sum) :=
  ⟨rfl, C9_review_offsets ({"b"} : Finset String)
    [{ id := "a", name := "A", duration := some 60 },
     { id := "b", name := "B", duration := some 30 },
     { id := "c", name := "C", duration := some 10 }] 2
    { id := "c", name := "C", duration := some 10 } rfl⟩

theorem moveTask_up (A' : List RTask) (b x : RTask) (B : List RTask) (tid : String)
    (hb : (b.id == tid) = false) (hA' : ∀ y ∈ A', (y.id == tid) = false)
    (hx : (x.id == tid) = true) :
    Card.moveTask (A' ++ b :: x :: B) tid (-1) = A' ++ x :: b :: B := by
  have hfind : findIndexAux (fun t => t.id == tid) (A' ++ b :: x :: B)
      = some (A'.length + 1) := by
    rw [findIndexAux_append A' _ hA']
    simp [findIndexAux, hb, hx, Nat.add_comm]
  simp only [Card.moveTask, hfind]
  split_ifs with hg
  · exfalso
    have hL : (A' ++ b :: x :: B).length = A'.length + (B.length + 2) := by simp
    omega
  · have ht : ((↑(A'.length + 1) : Int) + -1).toNat = A'.length := by omega
    rw [ht]
    have h1 : (A' ++ b :: x :: B).get? (A'.length + 1) = some x := by
      have := get?_append_add A' (b :: x :: B) 1
      simpa using this
    have h2 : (A' ++ b :: x :: B).get? A'.length = some b := get?_append_mid A' b (x :: B)
    rw [h1, h2]
    show ((A' ++ b :: x :: B).set (A'.length + 1) b).set A'.length x = A' ++ x :: b :: B
    have hs1 : (A' ++ b :: x :: B).set (A'.length + 1) b = A' ++ b :: b :: B := by
      have := set_append_add A' (b :: x :: B) 1 b
      simpa using this
    rw [hs1]
    exact set_append_mid A' b (b :: B) x

theorem moveTask_down (A' : List RTask) (x y : RTask) (B : List RTask) (tid : String)
    (hA' : ∀ z ∈ A', (z.id == tid) = false)
    (hx : (x.id == tid) = true) :
    Card.moveTask (A' ++ x :: y :: B) tid 1 = A' ++ y :: x :: B := by
  have hfind : findIndexAux (fun t => t.id == tid) (A' ++ x :: y :: B)
      = some A'.length := by
    rw [findIndexAux_append A' _ hA']
    simp [findIndexAux, hx]
  simp only [Card.moveTask, hfind]
  split_ifs with hg
  · exfalso
    have hL : (A' ++ x :: y :: B).length = A'.length + (B.length + 2) := by simp
    omega
  · have ht : ((↑A'.length : Int) + 1).toNat = A'.length + 1 := by omega
    rw [ht]
    have h1 : (A' ++ x :: y :: B).get? A'.length = some x := get?_append_mid A' x (y :: B)
    have h2 : (A' ++ x :: y :: B).get? (A'.length + 1) = some y := by
      have := get?_append_add A' (x :: y :: B) 1
      simpa using this
    rw [h1, h2]
    show ((A' ++ x :: y :: B).set A'.length y).set (A'.length + 1) x = A' ++ y :: x :: B
    rw [set_append_mid A' x (y :: B) y]
    have := set_append_add A' (y :: y :: B) 1 x
    simpa using this

/-- C8: in the review screen, moving the first task up or the last task down
is a no-op; moving a task at a positive index up and then down restores the
original list; and every unit move preserves the multiset of task entries. -/
theorem C8_move_task (ts : List RTask) (tid : String) :
    (findIndexAux (fun t => t.id == tid) ts = some 0 → Card.moveTask ts tid (-1) = ts)
    ∧ (findIndexAux (fun t => t.id == tid) ts = some (ts.length - 1) →
        Card.moveTask ts tid 1 = ts)
    ∧ (∀ i, findIndexAux (fun t => t.id == tid) ts = some (i + 1) →
        Card.moveTask (Card.moveTask ts tid (-1)) tid 1 = ts)
    ∧ (∀ d, (d = -1 ∨ d = 1) → (Card.moveTask ts tid d).Perm ts) := by
  refine ⟨?_, ?_, ?_, ?_⟩
  · intro h
    simp only [Card.moveTask, h]
    split_ifs with hg
    · rfl
    · exfalso; omega
  · intro h
    have hlt := findIndexAux_lt_length h
    simp only [Card.moveTask, h]
    split_ifs with hg
    · rfl
    · exfalso; omega
  · intro i h
    obtain ⟨A, x, B, hts, hlen, hx, hA⟩ := findIndexAux_eq_some h
    rcases List.eq_nil_or_concat A with rfl | ⟨A', b, rfl⟩
    · simp at hlen
    · rw [List.concat_eq_append] at hts hA
      subst hts
      have hb : (b.id == tid) = false := hA b (by simp)
      have hA' : ∀ y ∈ A', (y.id == tid) = false := fun y hy => hA y (by simp [hy])
      have hts2 : (A' ++ [b]) ++ x :: B = A' ++ b :: x :: B := by simp
      rw [hts2, moveTask_up A' b x B tid hb hA' hx]
      exact moveTask_down A' x b B tid hA' hx
  · rintro d (rfl | rfl)
    · cases hf : findIndexAux (fun t => t.id == tid) ts with
      | none => simp [Card.moveTask, hf]
      | some idx =>
        obtain ⟨A, x, B, hts, hlen, hx, hA⟩ := findIndexAux_eq_some hf
        by_cases hidx : idx = 0
        · subst hidx
          simp only [Card.moveTask, hf]
          split_ifs with hg
          · exact List.Perm.refl ts
          · exfalso; omega
        · rcases List.eq_nil_or_concat A with rfl | ⟨A', b, rfl⟩
          · exfalso; apply hidx; simp at hlen; omega
          · rw [List.concat_eq_append] at hts hA
            subst hts
            have hb : (b.id == tid) = false := hA b (by simp)
            have hA' : ∀ y ∈ A', (y.id == tid) = false := fun y hy => hA y (by simp [hy])
            have hts2 : (A' ++ [b]) ++ x :: B = A' ++ b :: x :: B := by simp
            rw [hts2, moveTask_up A' b x B tid hb hA' hx]
            exact List.Perm.append_left A' (List.Perm.swap b x B)
    · cases hf : findIndexAux (fun t => t.id == tid) ts with
      | none => simp [Card.moveTask, hf]
      | some idx =>
        obtain ⟨A, x, B, hts, hlen, hx, hA⟩ := findIndexAux_eq_some hf
        cases B with
        | nil =>
          subst hts
          simp only [Card.moveTask, hf]
          split_ifs with hg
          · exact List.Perm.refl _
          · exfalso
            have hL : (A ++ [x]).length = A.length + 1 := by simp
            omega
        | cons y B' =>
          subst hts
          rw [moveTask_down A x y B' tid (fun z hz => hA z hz) hx]
          exact List.Perm.append_left A (List.Perm.swap x y B')

/-- C8 witness: for a concrete two-task list, moving the second task up and
then down restores the original list, by direct application of the
theorem. -/
theorem C8_move_task_witness :
    findIndexAux (fun t => t.id == "b")
        ([{ id := "a", name := "A", duration := some 60 },
          { id := "b", name := "B", duration := some 30 }] : List RTask) = some 1
    ∧ Card.moveTask (Card.moveTask
        [{ id := "a", name := "A", duration := some 60 },
         { id := "b", name := "B", duration := some 30 }] "b" (-1)) "b" 1
      = [{ id := "a", name := "A", duration := some 60 },
         { id := "b", name := "B", duration := some 30 }] :=
  ⟨by decide,
   (C8_move_task
      [{ id := "a", name := "A", duration := some 60 },
       { id := "b", name := "B", duration := some 30 }] "b").2.2.1 0 (by decide)⟩

theorem findIndexAux_init (skips : Finset String) (m : String → Engine.AdvMode) :
    ∀ order : List String,
      findIndexAux Engine.isPending
        (order.map (fun i => Engine.initState skips { taskId := i, mode := m i }))
      = findIndexAux (fun i => decide (i ∉ skips)) order := by
  intro order
  induction order with
  | nil => rfl
  | cons a rest ih =>
    by_cases ha : a ∈ skips
    · have h1 : Engine.isPending
          (Engine.initState skips { taskId := a, mode := m a }) = false := by
        simp [Engine.isPending, Engine.initState, ha]
      have h2 : (decide (a ∉ skips)) = false := by simp [ha]
      simp only [List.map_cons, findIndexAux, h1, h2, Bool.false_eq_true, if_false, ih]
    · have h1 : Engine.isPending
          (Engine.initState skips { taskId := a, mode := m a }) = true := by
        simp [Engine.isPending, Engine.initState, ha]
      have h2 : (decide (a ∉ skips)) = true := by simp [ha]
      simp only [List.map_cons, findIndexAux, h1, h2, if_true]

theorem states0_get? (skips : Finset String) (m : String → Engine.AdvMode)
    (order : List String) (k : Nat) (x : Engine.TaskState)
    (h : ((order.map (fun i => ({ taskId := i, mode := m i } : Engine.EngTask))).map
        (Engine.initState skips)).get? k = some x) :
    ∃ i, order.get? k = some i
      ∧ x = Engine.initState skips { taskId := i, mode := m i } := by
  rw [List.get?_map, List.get?_map] at h
  cases ho : order.get? k with
  | none => rw [ho] at h; simp at h
  | some i =>
    rw [ho] at h
    simp at h
    exact ⟨i, rfl, h.symm⟩

theorem startEngine_first_active (order : List String) (m : String → Engine.AdvMode)
    (skips : Finset String) (j : Nat)
    (hj : findIndexAux (fun i => decide (i ∉ skips)) order = some j) :
    ∃ s0, Engine.startEngine
        (order.map (fun i => { taskId := i, mode := m i })) skips
      = some (s0, [Engine.Event.routine_started, Engine.Event.task_started])
      ∧ s0.currentTaskIndex = j
      ∧ (s0.states.get? j).map Engine.TaskState.status = some Engine.TaskStatus.active
      ∧ (∀ k x, s0.states.get? k = some x → x.taskId ∈ skips →
          x.status = Engine.TaskStatus.skipped)
      ∧ s0.states.length = order.length := by
  have hne : order ≠ [] := by
    intro h0
    subst h0
    simp [findIndexAux] at hj
  have hfi : findIndexAux Engine.isPending
      ((order.map (fun i => ({ taskId := i, mode := m i } : Engine.EngTask))).map
        (Engine.initState skips)) = some j := by
    rw [List.map_map]
    exact (findIndexAux_init skips m order).trans hj
  have hjlt := findIndexAux_lt_length hfi
  obtain ⟨x0, hx0, hp0⟩ := findIndexAux_get? hfi
  have hE : ((order.map (fun i => ({ taskId := i, mode := m i } : Engine.EngTask))).isEmpty)
      = false := by
    cases order with
    | nil => exact absurd rfl hne
    | cons a rest => rfl
  refine ⟨{ tasks := order.map (fun i => { taskId := i, mode := m i }),
            states := Engine.activateAt
              ((order.map (fun i => ({ taskId := i, mode := m i } : Engine.EngTask))).map
                (Engine.initState skips)) j,
            currentTaskIndex := j,
            status := Engine.SessionStatus.running }, ?_, rfl, ?_, ?_, ?_⟩
  · simp only [Engine.startEngine, hE, Bool.false_eq_true, if_false, hfi]
  · simp only [Engine.activateAt, hx0]
    rw [get?_set_self _ j _ hjlt]
    rfl
  · intro k x hk hxk
    by_cases hkj : k = j
    · subst hkj
      exfalso
      simp only [Engine.activateAt, hx0] at hk
      rw [get?_set_self _ k _ hjlt] at hk
      cases hk
      obtain ⟨i, hik, hxi⟩ := states0_get? skips m order k x0 hx0
      subst hxi
      simp only [Engine.initState] at hxk hp0
      by_cases hi : i ∈ skips
      · simp [Engine.isPending, hi] at hp0
      · exact hi hxk
    · simp only [Engine.activateAt, hx0] at hk
      rw [get?_set_other _ j k _ (fun he => hkj he.symm)] at hk
      obtain ⟨i, hik, hxi⟩ := states0_get? skips m order k x hk
      subst hxi
      simp only [Engine.initState] at hxk ⊢
      simp [hxk]
  · simp only [Engine.activateAt, hx0]
    simp

/-- C4: confirming the review screen calls the start service with
`skip_task_ids` equal to the current skipped set and `task_order` equal to
the review list order; the spec-modelled engine start then pre-marks every
slot whose id is in the skipped set as `skipped` before activation, and its
first active slot is the first non-pre-skipped one. -/
theorem C4_confirm_start (rs : Card.ReviewState) (rid : String)
    (m : String → Engine.AdvMode) (h : rs.reviewRoutineId = some rid) :
    ∃ p, Card.confirmStartRoutine rs = some p
      ∧ p.routine_id = rid
      ∧ p.skip_task_ids = rs.skippedTaskIds
      ∧ p.task_order = rs.reviewTasks.map RTask.id
      ∧ ∀ j, findIndexAux (fun i => decide (i ∉ rs.skippedTaskIds)) p.task_order
            = some j →
          ∃ s0, Engine.startEngine
              (p.task_order.map (fun i => { taskId := i, mode := m i }))
              p.skip_task_ids
            = some (s0, [Engine.Event.routine_started, Engine.Event.task_started])
          ∧ s0.currentTaskIndex = j
          ∧ (s0.states.get? j).map Engine.TaskState.status
              = some Engine.TaskStatus.active
          ∧ (∀ k x, s0.states.get? k = some x → x.taskId ∈ p.skip_task_ids →
              x.status = Engine.TaskStatus.skipped)
          ∧ s0.states.length = p.task_order.length := by
  refine ⟨{ routine_id := rid, skip_task_ids := rs.skippedTaskIds,
            task_order := rs.reviewTasks.map RTask.id },
          by simp [Card.confirmStartRoutine, h], rfl, rfl, rfl, ?_⟩
  intro j hj
  exact startEngine_first_active (rs.reviewTasks.map RTask.id) m rs.skippedTaskIds j hj

/-- C4 witness: a concrete review of two tasks with the first toggled as
skipped; the engine starts with slot 0 pre-skipped and slot 1 active. -/
theorem C4_confirm_start_witness :
    (Card.ReviewState.mk (some "r1")
        [{ id := "a", name := "A", duration := some 60 },
         { id := "b", name := "B", duration := some 30 }]
        ({"a"} : Finset String)).reviewRoutineId = some "r1"
    ∧ ∃ p, Card.confirmStartRoutine
          (Card.ReviewState.mk (some "r1")
            [{ id := "a", name := "A", duration := some 60 },
             { id := "b", name := "B", duration := some 30 }]
            ({"a"} : Finset String)) = some p
      ∧ p.routine_id = "r1"
      ∧ p.skip_task_ids = (Card.ReviewState.mk (some "r1")
            [{ id := "a", name := "A", duration := some 60 },
             { id := "b", name := "B", duration := some 30 }]
            ({"a"} : Finset String)).skippedTaskIds
      ∧ p.task_order = ((Card.ReviewState.mk (some "r1")
            [{ id := "a", name := "A", duration := some 60 },
             { id := "b", name := "B", duration := some 30 }]
            ({"a"} : Finset String)).reviewTasks).map RTask.id
      ∧ ∀ j, findIndexAux
            (fun i => decide (i ∉ (Card.ReviewState.mk (some "r1")
              [{ id := "a", name := "A", duration := some 60 },
               { id := "b", name := "B", duration := some 30 }]
              ({"a"} : Finset String)).skippedTaskIds)) p.task_order = some j →
          ∃ s0, Engine.startEngine
              (p.task_order.map (fun i => { taskId := i, mode := (fun _ => Engine.AdvMode.auto) i }))
              p.skip_task_ids
            = some (s0, [Engine.Event.routine_started, Engine.Event.task_started])
          ∧ s0.currentTaskIndex = j
          ∧ (s0.states.get? j).map Engine.TaskState.status
              = some Engine.TaskStatus.active
          ∧ (∀ k x, s0.states.get? k = some x → x.taskId ∈ p.skip_task_ids →
              x.status = Engine.TaskStatus.skipped)
          ∧ s0.states.length = p.task_order.length :=
  ⟨rfl, C4_confirm_start
    (Card.ReviewState.mk (some "r1")
      [{ id := "a", name := "A", duration := some 60 },
       { id := "b", name := "B", duration := some 30 }]
      ({"a"} : Finset String)) "r1" (fun _ => Engine.AdvMode.auto) rfl⟩

theorem runTicks_zero (s : Engine.Session) : Engine.runTicks s 0 = (s, []) := rfl

theorem runTicks_succ (s : Engine.Session) (n : Nat) :
    Engine.runTicks s (n + 1) =
      ((Engine.runTicks (Engine.tickExpired s).1 n).1,
       (Engine.tickExpired s).2 ++ (Engine.runTicks (Engine.tickExpired s).1 n).2) := rfl

theorem tickExpired_mid_nil (done : List String) (cur : String) :
    Engine.tickExpired (Engine.midSession done cur []) =
      (Engine.endSession (done ++ [cur]),
       [Engine.Event.task_completed, Engine.Event.routine_completed]) := by
  have htask : ((done ++ [cur]).map Engine.mkAutoTask).get? done.length
      = some (Engine.mkAutoTask cur) := by
    rw [List.map_append, List.map_cons]
    simpa using get?_append_mid (done.map Engine.mkAutoTask) (Engine.mkAutoTask cur)
      (([] : List String).map Engine.mkAutoTask)
  have hmode : (Engine.mkAutoTask cur).mode = Engine.AdvMode.auto := rfl
  have hst : (done.map Engine.mkDone
        ++ Engine.mkActive cur :: ([] : List String).map Engine.mkPend).get? done.length
      = some (Engine.mkActive cur) := by
    simpa using get?_append_mid (done.map Engine.mkDone) (Engine.mkActive cur) []
  have hupd : Engine.TaskState.mk (Engine.mkActive cur).taskId
        Engine.TaskStatus.completed true = Engine.mkDone cur := rfl
  have hset : (done.map Engine.mkDone
        ++ Engine.mkActive cur :: ([] : List String).map Engine.mkPend).set done.length
        (Engine.mkDone cur) = done.map Engine.mkDone ++ [Engine.mkDone cur] := by
    simpa using set_append_mid (done.map Engine.mkDone) (Engine.mkActive cur) []
      (Engine.mkDone cur)
  have hdrop : (done.map Engine.mkDone ++ [Engine.mkDone cur]).drop (done.length + 1)
      = [] := by
    have h2 : (done.map Engine.mkDone ++ [Engine.mkDone cur]).length = done.length + 1 := by
      simp
    rw [← h2, List.drop_length]
  have hfin : findIndexAux Engine.isPending ([] : List Engine.TaskState) = none := rfl
  simp only [Engine.tickExpired, Engine.midSession, htask, hmode, Engine.completeAt,
    Engine.advance, hst, hupd, hset, hdrop, hfin]
  simp [Engine.endSession, List.map_append]

theorem tickExpired_mid_cons (done : List String) (cur t : String) (todo' : List String) :
    Engine.tickExpired (Engine.midSession done cur (t :: todo')) =
      (Engine.midSession (done ++ [cur]) t todo',
       [Engine.Event.task_completed, Engine.Event.task_started]) := by
  have htask : ((done ++ cur :: t :: todo').map Engine.mkAutoTask).get? done.length
      = some (Engine.mkAutoTask cur) := by
    rw [List.map_append, List.map_cons]
    simpa using get?_append_mid (done.map Engine.mkAutoTask) (Engine.mkAutoTask cur)
      ((t :: todo').map Engine.mkAutoTask)
  have hmode : (Engine.mkAutoTask cur).mode = Engine.AdvMode.auto := rfl
  have hst : (done.map Engine.mkDone
        ++ Engine.mkActive cur :: (t :: todo').map Engine.mkPend).get? done.length
      = some (Engine.mkActive cur) := by
    simpa using get?_append_mid (done.map Engine.mkDone) (Engine.mkActive cur)
      ((t :: todo').map Engine.mkPend)
  have hupd : Engine.TaskState.mk (Engine.mkActive cur).taskId
        Engine.TaskStatus.completed true = Engine.mkDone cur := rfl
  have hset : (done.map Engine.mkDone
        ++ Engine.mkActive cur :: (t :: todo').map Engine.mkPend).set done.length
        (Engine.mkDone cur)
      = done.map Engine.mkDone ++ Engine.mkDone cur :: (t :: todo').map Engine.mkPend := by
    simpa using set_append_mid (done.map Engine.mkDone) (Engine.mkActive cur)
      ((t :: todo').map Engine.mkPend) (Engine.mkDone cur)
  have hdrop : (done.map Engine.mkDone
        ++ Engine.mkDone cur :: (t :: todo').map Engine.mkPend).drop (done.length + 1)
      = Engine.mkPend t :: todo'.map Engine.mkPend := by
    have h1 : done.map Engine.mkDone ++ Engine.mkDone cur :: (t :: todo').map Engine.mkPend
        = (done.map Engine.mkDone ++ [Engine.mkDone cur])
          ++ (Engine.mkPend t :: todo'.map Engine.mkPend) := by simp
    have h2 : (done.map Engine.mkDone ++ [Engine.mkDone cur]).length = done.length + 1 := by
      simp
    rw [h1, ← h2, drop_append_len]
  have hfin : findIndexAux Engine.isPending (Engine.mkPend t :: todo'.map Engine.mkPend)
      = some 0 := by
    simp [findIndexAux, Engine.isPending, Engine.mkPend]
  have hact1 : (done.map Engine.mkDone
        ++ Engine.mkDone cur :: (t :: todo').map Engine.mkPend).get? (done.length + 1)
      = some (Engine.mkPend t) := by
    have := get?_append_add (done.map Engine.mkDone)
      (Engine.mkDone cur :: (t :: todo').map Engine.mkPend) 1
    simpa using this
  have hupd2 : Engine.TaskState.mk (Engine.mkPend t).taskId Engine.TaskStatus.active
      (Engine.mkPend t).wasAutoAdvanced = Engine.mkActive t := rfl
  have hset2 : (done.map Engine.mkDone
        ++ Engine.mkDone cur :: (t :: todo').map Engine.mkPend).set (done.length + 1)
        (Engine.mkActive t)
      = done.map Engine.mkDone
          ++ Engine.mkDone cur :: Engine.mkActive t :: todo'.map Engine.mkPend := by
    have := set_append_add (done.map Engine.mkDone)
      (Engine.mkDone cur :: (t :: todo').map Engine.mkPend) 1 (Engine.mkActive t)
    simpa using this
  simp only [Engine.tickExpired, Engine.midSession, htask, hmode, Engine.completeAt,
    Engine.advance, hst, hupd, hset, hdrop, hfin, Engine.activateAt, Nat.add_zero,
    hact1, hupd2, hset2]
  simp [List.map_append]

theorem runTicks_mid :
    ∀ (todo done : List String) (cur : String),
      Engine.runTicks (Engine.midSession done cur todo) (todo.length + 1) =
        (Engine.endSession (done ++ cur :: todo), Engine.tickEvents todo) := by
  intro todo
  induction todo with
  | nil =>
    intro done cur
    rw [runTicks_succ]
    simp only [List.length_nil, runTicks_zero, tickExpired_mid_nil]
    simp [Engine.tickEvents]
  | cons t todo' ih =>
    intro done cur
    rw [runTicks_succ]
    simp only [List.length_cons, tickExpired_mid_cons]
    rw [ih (done ++ [cur]) t]
    simp [Engine.tickEvents, List.append_assoc]

theorem countEvent_append (e : Engine.Event) :
    ∀ l1 l2 : List Engine.Event,
      Engine.countEvent e (l1 ++ l2) = Engine.countEvent e l1 + Engine.countEvent e l2 := by
  intro l1
  induction l1 with
  | nil => intro l2; simp [Engine.countEvent]
  | cons x l1' ih =>
    intro l2
    have h1 : Engine.countEvent e ((x :: l1') ++ l2)
        = (if x = e then 1 else 0) + Engine.countEvent e (l1' ++ l2) := rfl
    have h2 : Engine.countEvent e (x :: l1')
        = (if x = e then 1 else 0) + Engine.countEvent e l1' := rfl
    rw [h1, h2, ih l2]
    omega

theorem countEvent_tickEvents (todo : List String) :
    Engine.countEvent Engine.Event.task_started (Engine.tickEvents todo) = todo.length
    ∧ Engine.countEvent Engine.Event.task_completed (Engine.tickEvents todo)
        = todo.length + 1
    ∧ Engine.countEvent Engine.Event.routine_completed (Engine.tickEvents todo) = 1 := by
  induction todo with
  | nil => refine ⟨rfl, rfl, rfl⟩
  | cons t todo' ih =>
    refine ⟨?_, ?_, ?_⟩ <;>
      simp [Engine.tickEvents, Engine.countEvent, ih.1, ih.2.1, ih.2.2] <;> omega

theorem tickEvents_ends_rc (todo : List String) :
    ∃ pre, Engine.tickEvents todo = pre ++ [Engine.Event.routine_completed] := by
  induction todo with
  | nil => exact ⟨[Engine.Event.task_completed], rfl⟩
  | cons t todo' ih =>
    obtain ⟨pre, hpre⟩ := ih
    exact ⟨Engine.Event.task_completed :: Engine.Event.task_started :: pre,
      by simp [Engine.tickEvents, hpre]⟩

theorem endSession_all_completed (all : List String) :
    (Engine.endSession all).states.all
      (fun st => decide (st.status = Engine.TaskStatus.completed)) = true := by
  simp [Engine.endSession, List.all_eq_true, Engine.mkDone]

theorem startEngine_all_auto (c : String) (rest : List String) :
    Engine.startEngine ((c :: rest).map Engine.mkAutoTask) ∅
      = some (Engine.midSession [] c rest,
              [Engine.Event.routine_started, Engine.Event.task_started]) := by
  have hcomp : Engine.initState ∅ ∘ Engine.mkAutoTask = Engine.mkPend := by
    funext i
    simp [Engine.initState, Engine.mkAutoTask, Engine.mkPend]
  have hstates0 : (((c :: rest).map Engine.mkAutoTask).map (Engine.initState ∅))
      = Engine.mkPend c :: rest.map Engine.mkPend := by
    rw [List.map_map, hcomp]
    rfl
  have hfi : findIndexAux Engine.isPending (Engine.mkPend c :: rest.map Engine.mkPend)
      = some 0 := by
    simp [findIndexAux, Engine.isPending, Engine.mkPend]
  have hE : (((c :: rest).map Engine.mkAutoTask).isEmpty) = false := rfl
  simp only [Engine.startEngine, hE, Bool.false_eq_true, if_false]
  rw [hstates0, hfi]
  rfl

/-- C1 (spec-modelled engine): for a non-empty routine whose tasks are all in
auto mode, starting and then ticking past every deadline produces exactly N
`task_started` events, exactly N `task_completed` events and one final
`routine_completed`, and every TaskState ends with status completed. -/
theorem C1_all_auto_run (ids : List String) (h : ids ≠ []) :
    ∃ s0 sf evtick,
      Engine.startEngine (ids.map Engine.mkAutoTask) ∅
        = some (s0, [Engine.Event.routine_started, Engine.Event.task_started])
      ∧ Engine.runTicks s0 ids.length = (sf, evtick)
      ∧ Engine.countEvent Engine.Event.task_started
          ([Engine.Event.routine_started, Engine.Event.task_started] ++ evtick)
          = ids.length
      ∧ Engine.countEvent Engine.Event.task_completed
          ([Engine.Event.routine_started, Engine.Event.task_started] ++ evtick)
          = ids.length
      ∧ Engine.countEvent Engine.Event.routine_completed
          ([Engine.Event.routine_started, Engine.Event.task_started] ++ evtick) = 1
      ∧ (∃ pre, [Engine.Event.routine_started, Engine.Event.task_started] ++ evtick
          = pre ++ [Engine.Event.routine_completed])
      ∧ sf.states.all
          (fun st => decide (st.status = Engine.TaskStatus.completed)) = true
      ∧ sf.status = Engine.SessionStatus.completed := by
  cases ids with
  | nil => exact absurd rfl h
  | cons c rest =>
    refine ⟨Engine.midSession [] c rest, Engine.endSession ([] ++ c :: rest),
      Engine.tickEvents rest, startEngine_all_auto c rest, runTicks_mid rest [] c,
      ?_, ?_, ?_, ?_, endSession_all_completed _, rfl⟩
    · rw [countEvent_append]
      have := (countEvent_tickEvents rest).1
      simp [this, Engine.countEvent]
      omega
    · rw [countEvent_append]
      have := (countEvent_tickEvents rest).2.1
      simp [this, Engine.countEvent]
    · rw [countEvent_append]
      have := (countEvent_tickEvents rest).2.2
      simp [this, Engine.countEvent]
    · obtain ⟨pre, hpre⟩ := tickEvents_ends_rc rest
      exact ⟨[Engine.Event.routine_started, Engine.Event.task_started] ++ pre,
        by simp [hpre]⟩

/-- C1 witness: the two-task all-auto routine, by direct application of the
theorem. -/
theorem C1_all_auto_run_witness :
    (["a", "b"] : List String) ≠ []
    ∧ ∃ s0 sf evtick,
      Engine.startEngine ((["a", "b"] : List String).map Engine.mkAutoTask) ∅
        = some (s0, [Engine.Event.routine_started, Engine.Event.task_started])
      ∧ Engine.runTicks s0 (["a", "b"] : List String).length = (sf, evtick)
      ∧ Engine.countEvent Engine.Event.task_started
          ([Engine.Event.routine_started, Engine.Event.task_started] ++ evtick)
          = (["a", "b"] : List String).length
      ∧ Engine.countEvent Engine.Event.task_completed
          ([Engine.Event.routine_started, Engine.Event.task_started] ++ evtick)
          = (["a", "b"] : List String).length
      ∧ Engine.countEvent Engine.Event.routine_completed
          ([Engine.Event.routine_started, Engine.Event.task_started] ++ evtick) = 1
      ∧ (∃ pre, [Engine.Event.routine_started, Engine.Event.task_started] ++ evtick
          = pre ++ [Engine.Event.routine_completed])
      ∧ sf.states.all
          (fun st => decide (st.status = Engine.TaskStatus.completed)) = true
      ∧ sf.status = Engine.SessionStatus.completed :=
  ⟨by decide, C1_all_auto_run ["a", "b"] (by decide)⟩

end Routinely
